import Mathlib

/-!
GoShield rate limiter — shallow embedding.

Shallow embedding of the two quota strategies of the GoShield rate
limiter (`internal/ratelimiter/fixed_window.go` and
`internal/ratelimiter/sliding_window.go`), together with proofs of the
testable properties stated for them.

Modelling conventions:
* Redis state for one quota key is made explicit.  A fixed-window key
  holds an integer counter plus an optional absolute expiry instant
  (milliseconds); a sliding-window key holds a sorted-set, modelled as a
  list of `(member, score)` pairs with pairwise-distinct members, plus
  an optional expiry instant.  A key whose expiry instant lies strictly
  in the past behaves as absent, which is Redis TTL semantics.
* `time.Now().UnixMilli()` and `time.Now().UnixNano()` become explicit
  `Nat` parameters.
* The Lua scripts are executed atomically by Redis, so each script is a
  pure function from pre-state to (post-state, return value).
* The `Run(...).Int64()` round trip can fail (store unreachable or
  script error); this is modelled by a `storeOk : Bool` parameter: the
  Go wrappers return `.error` exactly when the round trip failed, and
  otherwise build the result exactly as the Go code does.
-/

/-- Quota key used by `CheckFixedWindow`: `key := "rate:fixed:" + identifier`. -/
def fixedWindowKey (identifier : String) : String :=
  "rate:fixed:" ++ identifier

/-- Quota key used by `CheckSlidingWindow`: `key := "rate:" + identifier`. -/
def slidingWindowKey (identifier : String) : String :=
  "rate:" ++ identifier

/-- State of a fixed-window quota key in Redis: the integer counter and the
absolute expiry instant in milliseconds (`none` = no TTL attached). -/
structure FixedEntry where
  count : Int
  expireAt : Option Nat
deriving DecidableEq

/-- Redis TTL semantics for the fixed-window key: a key whose expiry lies
strictly in the past is gone. -/
def redisLiveFixed (st : Option FixedEntry) (now : Nat) : Option FixedEntry :=
  match st with
  | none => none
  | some e =>
    match e.expireAt with
    | none => some e
    | some t => if t < now then none else some e

/-- The fixed-window Lua script, executed atomically:
`INCR key`; if the resulting count is 1, `EXPIRE key expire_sec`;
return the count.  `now` is the execution instant (ms), used only for
TTL semantics. -/
def fixedWindowScript (st : Option FixedEntry) (now : Nat) (expireSec : Nat) :
    FixedEntry × Int :=
  let prev := redisLiveFixed st now
  let count := (match prev with | none => 0 | some e => e.count) + 1
  let ttl := match prev with | none => none | some e => e.expireAt
  if count = 1 then
    ({ count := count, expireAt := some (now + expireSec * 1000) }, count)
  else
    ({ count := count, expireAt := ttl }, count)

/-- `FixedWindowResult` of `fixed_window.go`. -/
structure FixedWindowResult where
  Allowed : Bool
  Count : Int
  Limit : Int
  WindowSec : Nat
deriving DecidableEq

/-- `CheckFixedWindow` of `fixed_window.go`: run the script; on error
return no result; otherwise `Allowed := count <= limit`. -/
def CheckFixedWindow (storeOk : Bool) (st : Option FixedEntry) (now : Nat)
    (limit : Int) (windowSeconds : Nat) :
    Except String (FixedEntry × FixedWindowResult) :=
  match (if storeOk then some (fixedWindowScript st now windowSeconds) else none) with
  | none => .error "fixed window script error"
  | some (stNew, count) =>
    .ok (stNew,
      { Allowed := decide (count ≤ limit), Count := count,
        Limit := limit, WindowSec := windowSeconds })

/-- State of a sliding-window quota key in Redis: the sorted set as a list
of `(member, score)` pairs (members pairwise distinct), plus the expiry
instant. -/
structure SlidingEntry where
  entries : List (String × Int)
  expireAt : Option Nat
deriving DecidableEq

/-- Redis TTL semantics for the sliding-window key. -/
def redisLiveSliding (st : Option SlidingEntry) (now : Nat) : List (String × Int) :=
  match st with
  | none => []
  | some e =>
    match e.expireAt with
    | none => e.entries
    | some t => if t < now then [] else e.entries

/-- `ZREMRANGEBYSCORE key lo hi`: remove every element whose score lies in
the closed interval `[lo, hi]` (Redis bounds are inclusive). -/
def zremrangebyscore (es : List (String × Int)) (lo hi : Int) :
    List (String × Int) :=
  es.filter (fun p => !(decide (lo ≤ p.2) && decide (p.2 ≤ hi)))

/-- `ZADD key score member`: update the member's score if present,
otherwise insert it. -/
def zadd (es : List (String × Int)) (score : Int) (member : String) :
    List (String × Int) :=
  if es.any (fun p => p.1 == member) then
    es.map (fun p => if p.1 == member then (p.1, score) else p)
  else
    es ++ [(member, score)]

/-- `ZCARD key`: number of members in the set. -/
def zcard (es : List (String × Int)) : Nat :=
  es.length

/-- The sliding-window Lua script, executed atomically:
`ZREMRANGEBYSCORE key 0 (now - window)`; `ZADD key now member`;
`count := ZCARD key`; `EXPIRE key expire_sec`; return `count`. -/
def slidingWindowScript (st : Option SlidingEntry) (now : Nat) (windowMs : Int)
    (expireSec : Nat) (member : String) : SlidingEntry × Int :=
  let es := redisLiveSliding st now
  let pruned := zremrangebyscore es 0 ((now : Int) - windowMs)
  let added := zadd pruned (now : Int) member
  let count := (zcard added : Int)
  ({ entries := added, expireAt := some (now + expireSec * 1000) }, count)

/-- The member string generated by `CheckSlidingWindow`:
`fmt.Sprintf("%d:%d", now, time.Now().UnixNano())`. -/
def mkMember (nowMs : Nat) (nowNano : Nat) : String :=
  toString nowMs ++ ":" ++ toString nowNano

/-- `SlidingWindowResult` of `sliding_window.go`. -/
structure SlidingWindowResult where
  Allowed : Bool
  Count : Int
  Limit : Int
  WindowSec : Nat
deriving DecidableEq

/-- `CheckSlidingWindow` of `sliding_window.go`: compute
`windowMs = windowSeconds*1000`, `expireSec = windowSeconds + 1` and the
member string, run the script; on error return no result; otherwise
`Allowed := count <= limit`. -/
def CheckSlidingWindow (storeOk : Bool) (st : Option SlidingEntry)
    (nowMs nowNano : Nat) (limit : Int) (windowSeconds : Nat) :
    Except String (SlidingEntry × SlidingWindowResult) :=
  let windowMs : Int := (windowSeconds : Int) * 1000
  let expireSec : Nat := windowSeconds + 1
  let member := mkMember nowMs nowNano
  match (if storeOk then some (slidingWindowScript st nowMs windowMs expireSec member) else none) with
  | none => .error "sliding window script error"
  | some (stNew, count) =>
    .ok (stNew,
      { Allowed := decide (count ≤ limit), Count := count,
        Limit := limit, WindowSec := windowSeconds })

/-- Sequential (serialized) fixed-window checks at the given instants,
all against the same quota key, collecting the produced results. -/
def fixedCheckSeq (st : Option FixedEntry) (times : List Nat) (limit : Int)
    (windowSeconds : Nat) : Option FixedEntry × List FixedWindowResult :=
  match times with
  | [] => (st, [])
  | t :: ts =>
    match CheckFixedWindow true st t limit windowSeconds with
    | .error _ => (st, [])
    | .ok (stNew, r) =>
      let rec2 := fixedCheckSeq (some stNew) ts limit windowSeconds
      (rec2.1, r :: rec2.2)

/-- Sequential (serialized) sliding-window checks; each call is a pair
`(nowMs, nowNano)` of clock readings, all against the same quota key. -/
def slidingCheckSeq (st : Option SlidingEntry) (calls : List (Nat × Nat))
    (limit : Int) (windowSeconds : Nat) :
    Option SlidingEntry × List SlidingWindowResult :=
  match calls with
  | [] => (st, [])
  | c :: cs =>
    match CheckSlidingWindow true st c.1 c.2 limit windowSeconds with
    | .error _ => (st, [])
    | .ok (stNew, r) =>
      let rec2 := slidingCheckSeq (some stNew) cs limit windowSeconds
      (rec2.1, r :: rec2.2)

/-- The result the fixed-window wrapper builds from a returned count. -/
def mkFixedResult (count limit : Int) (windowSeconds : Nat) : FixedWindowResult :=
  { Allowed := decide (count ≤ limit), Count := count,
    Limit := limit, WindowSec := windowSeconds }

/-- The result the sliding-window wrapper builds from a returned count. -/
def mkSlidingResult (count limit : Int) (windowSeconds : Nat) : SlidingWindowResult :=
  { Allowed := decide (count ≤ limit), Count := count,
    Limit := limit, WindowSec := windowSeconds }

/-! Basic facts about the scripts -/

/-- Counter value the fixed-window script sees before incrementing. -/
def liveFixedCount (st : Option FixedEntry) (now : Nat) : Int :=
  match redisLiveFixed st now with
  | none => 0
  | some e => e.count

lemma redisLiveFixed_of_le (c : Int) (T now : Nat) (h : now ≤ T) :
    redisLiveFixed (some ⟨c, some T⟩) now = some ⟨c, some T⟩ := by
  simp only [redisLiveFixed]
  rw [if_neg (by omega)]

lemma redisLiveFixed_of_expired (c : Int) (T now : Nat) (h : T < now) :
    redisLiveFixed (some ⟨c, some T⟩) now = none := by
  simp only [redisLiveFixed]
  rw [if_pos h]

lemma fixedWindowScript_of_absent (st : Option FixedEntry) (now w : Nat)
    (h : redisLiveFixed st now = none) :
    fixedWindowScript st now w = (⟨1, some (now + w * 1000)⟩, 1) := by
  simp [fixedWindowScript, h]

lemma fixedWindowScript_of_live (st : Option FixedEntry) (now w : Nat) (e : FixedEntry)
    (h : redisLiveFixed st now = some e) (hc : 1 ≤ e.count) :
    fixedWindowScript st now w = (⟨e.count + 1, e.expireAt⟩, e.count + 1) := by
  simp only [fixedWindowScript, h]
  rw [if_neg (by omega)]

lemma zadd_of_fresh (es : List (String × Int)) (sc : Int) (m : String)
    (h : ∀ p ∈ es, p.1 ≠ m) : zadd es sc m = es ++ [(m, sc)] := by
  have hany : es.any (fun p => p.1 == m) = false := by
    rw [List.any_eq_false]
    intro p hp
    simpa using h p hp
  simp [zadd, hany]

lemma slidingWindowScript_of_fresh (st : Option SlidingEntry) (now : Nat)
    (wMs : Int) (expS : Nat) (m : String)
    (h : ∀ p ∈ zremrangebyscore (redisLiveSliding st now) 0 ((now : Int) - wMs),
      p.1 ≠ m) :
    slidingWindowScript st now wMs expS m =
      (⟨zremrangebyscore (redisLiveSliding st now) 0 ((now : Int) - wMs) ++
          [(m, (now : Int))],
        some (now + expS * 1000)⟩,
       ((zremrangebyscore (redisLiveSliding st now) 0 ((now : Int) - wMs)).length : Int)
         + 1) := by
  simp only [slidingWindowScript, zcard]
  rw [zadd_of_fresh _ _ _ h]
  simp

/-! C2: the decision is exactly `count ≤ limit` -/

/-- C2. For every successful call to `CheckFixedWindow` or
`CheckSlidingWindow`, the returned result satisfies
`Allowed = (Count ≤ Limit)` with `Limit` the configured limit: the request
is admitted exactly when the post-increment count does not exceed the
limit, so the first request whose count exceeds the limit is itself
rejected. -/
theorem allowed_eq_count_le_limit
    (okF okS : Bool) (stF : Option FixedEntry) (stS : Option SlidingEntry)
    (nowF nowMs nowNano : Nat) (limitF limitS : Int) (wF wS : Nat)
    (sF : FixedEntry) (rF : FixedWindowResult)
    (sS : SlidingEntry) (rS : SlidingWindowResult)
    (hF : CheckFixedWindow okF stF nowF limitF wF = .ok (sF, rF))
    (hS : CheckSlidingWindow okS stS nowMs nowNano limitS wS = .ok (sS, rS)) :
    (rF.Allowed = decide (rF.Count ≤ rF.Limit) ∧ rF.Limit = limitF) ∧
    (rS.Allowed = decide (rS.Count ≤ rS.Limit) ∧ rS.Limit = limitS) := by
  cases okF with
  | false => simp [CheckFixedWindow] at hF
  | true =>
    cases okS with
    | false => simp [CheckSlidingWindow] at hS
    | true =>
      simp only [CheckFixedWindow, Except.ok.injEq, Prod.mk.injEq, if_true] at hF
      simp only [CheckSlidingWindow, Except.ok.injEq, Prod.mk.injEq, if_true] at hS
      obtain ⟨-, hrF⟩ := hF
      obtain ⟨-, hrS⟩ := hS
      subst hrF
      subst hrS
      simp

/-- Witness for C2 at a concrete input. -/
theorem allowed_eq_count_le_limit_witness :
    (((⟨true, 1, 3, 60⟩ : FixedWindowResult).Allowed =
        decide ((⟨true, 1, 3, 60⟩ : FixedWindowResult).Count ≤
          (⟨true, 1, 3, 60⟩ : FixedWindowResult).Limit) ∧
      (⟨true, 1, 3, 60⟩ : FixedWindowResult).Limit = 3) ∧
     ((⟨true, 1, 3, 1⟩ : SlidingWindowResult).Allowed =
        decide ((⟨true, 1, 3, 1⟩ : SlidingWindowResult).Count ≤
          (⟨true, 1, 3, 1⟩ : SlidingWindowResult).Limit) ∧
      (⟨true, 1, 3, 1⟩ : SlidingWindowResult).Limit = 3)) :=
  allowed_eq_count_le_limit true true none none 0 0 5 3 3 60 1
    ⟨1, some 60000⟩ ⟨true, 1, 3, 60⟩ ⟨[("0:5", 0)], some 2000⟩ ⟨true, 1, 3, 1⟩
    (by rfl) (by rfl)

/-! C7: errors exactly on store failure -/

/-- C7. `CheckFixedWindow` and `CheckSlidingWindow` return an error if
and only if the store transaction fails; on error they return no result at
all, while a rejection is a normal non-error result. -/
theorem error_iff_store_failure
    (okF okS : Bool) (stF : Option FixedEntry) (stS : Option SlidingEntry)
    (nowF nowMs nowNano : Nat) (limitF limitS : Int) (wF wS : Nat) :
    ((∃ x, CheckFixedWindow okF stF nowF limitF wF = .ok x) ↔ okF = true) ∧
    (okF = false →
      CheckFixedWindow okF stF nowF limitF wF = .error "fixed window script error") ∧
    ((∃ x, CheckSlidingWindow okS stS nowMs nowNano limitS wS = .ok x) ↔ okS = true) ∧
    (okS = false →
      CheckSlidingWindow okS stS nowMs nowNano limitS wS =
        .error "sliding window script error") := by
  cases okF <;> cases okS <;> simp [CheckFixedWindow, CheckSlidingWindow]

/-! C8: an expired fixed-window counter restarts at 1 -/

/-- C8. If the fixed-window counter record has expired (the call comes
more than `windowSeconds` after the window began, with nothing keeping the
key alive), the next `CheckFixedWindow` call starts a fresh window: it
returns count 1 and `allowed = true` for any positive limit, regardless of
how high the prior count `c` was, and sets the key expiry to
`windowSeconds` from now because the resulting value equals exactly 1. -/
theorem fixed_window_expiry_fresh_start
    (c : Int) (T now : Nat) (limit : Int) (w : Nat)
    (hexp : T < now) (hlim : 1 ≤ limit) :
    CheckFixedWindow true (some ⟨c, some T⟩) now limit w =
      .ok (⟨1, some (now + w * 1000)⟩, ⟨true, 1, limit, w⟩) := by
  have hdead : redisLiveFixed (some ⟨c, some T⟩) now = none :=
    redisLiveFixed_of_expired _ _ _ hexp
  simp [CheckFixedWindow, fixedWindowScript_of_absent _ _ _ hdead, hlim]

/-- Witness for C8: limit 3, window 60 s, prior count 99, window expired at
60000 ms, call at 60001 ms. -/
theorem fixed_window_expiry_fresh_start_witness :
    CheckFixedWindow true (some ⟨99, some 60000⟩) 60001 3 60 =
      .ok (⟨1, some (60001 + 60 * 1000)⟩, ⟨true, 1, 3, 60⟩) :=
  fixed_window_expiry_fresh_start 99 60000 60001 3 60 (by decide) (by decide)

/-! C5: quota-key spaces of the two algorithms -/

/-- C5 counterexample. The key spaces are not collision-free over all
identifier strings: the fixed-window key for identifier `"a"` coincides
with the sliding-window key for identifier `"fixed:a"` (both are
`"rate:fixed:a"`). -/
theorem quota_keys_collision_counterexample :
    fixedWindowKey "a" = slidingWindowKey "fixed:a" := by decide

/-- C5 amended. The fixed-window quota key for identifier `i` equals
the sliding-window quota key for identifier `j` exactly when
`j = "fixed:" ++ i`; for every other pair of identifiers — in particular
whenever `j` does not start with `"fixed:"`, as is the case for IP
addresses — the two key spaces are disjoint. -/
theorem quota_keys_collision_amended (i j : String) :
    fixedWindowKey i = slidingWindowKey j ↔ j = "fixed:" ++ i := by
  constructor
  · intro h
    have hd := congrArg String.data h
    simp only [fixedWindowKey, slidingWindowKey, String.data_append,
      List.cons_append, List.nil_append, List.cons.injEq, true_and] at hd
    apply String.ext
    simp only [String.data_append, List.cons_append, List.nil_append]
    exact hd.symm
  · intro h
    subst h
    apply String.ext
    simp only [fixedWindowKey, slidingWindowKey, String.data_append,
      List.cons_append, List.nil_append]

/-! C4: the pruning boundary of the sliding window -/

lemma mem_zadd_of_ne (es : List (String × Int)) (sc : Int) (m : String)
    (p : String × Int) (hm : p.1 ≠ m) : p ∈ zadd es sc m ↔ p ∈ es := by
  unfold zadd
  split
  · constructor
    · intro hpm
      obtain ⟨q, hq, hqe⟩ := List.mem_map.1 hpm
      by_cases hq1 : q.1 = m
      · rw [if_pos (by simpa using hq1)] at hqe
        exact absurd (by rw [← hqe]; exact hq1) hm
      · rw [if_neg (by simpa using hq1)] at hqe
        rwa [← hqe]
    · intro hpe
      exact List.mem_map.2 ⟨p, hpe, by rw [if_neg (by simpa using hm)]⟩
  · simp only [List.mem_append, List.mem_singleton]
    constructor
    · rintro (h | h)
      · exact h
      · exact absurd (by rw [h]) hm
    · exact fun h => Or.inl h

/-- C4 counterexample. With `windowSeconds = 1` (window 1000 ms) and a
call at `now = 2000` ms, the log entry whose timestamp is exactly
`now − windowSeconds` (score 1000) is *removed*, not retained: the call
returns count 1 — not 2 — and the old entry is gone from the stored log.
Redis `ZREMRANGEBYSCORE 0 (now − window)` has an inclusive upper bound. -/
theorem sliding_prune_boundary_counterexample :
    CheckSlidingWindow true (some ⟨[("1000:5", 1000)], some 100000⟩) 2000 7 5 1 =
      .ok (⟨[("2000:7", 2000)], some 4000⟩, ⟨true, 1, 5, 1⟩) ∧
    ¬ (("1000:5", (1000 : Int)) ∈
        (⟨[("2000:7", 2000)], some 4000⟩ : SlidingEntry).entries) :=
  ⟨by rfl, by decide⟩

/-- C4 amended. The pruning step removes exactly the log entries
whose timestamp `t` satisfies `0 ≤ t ≤ now − windowMs` (the upper bound is
inclusive): a live entry is retained by the check — and counted, since the
returned count is the size of the stored log — iff its timestamp is
strictly newer than `now − windowMs`.  So an entry inserted
`windowSeconds − ε` ago is retained and one inserted more than
`windowSeconds` ago is removed, but an entry whose timestamp is exactly
`now − windowSeconds` is removed as well. -/
theorem sliding_prune_boundary_amended (st : Option SlidingEntry) (now : Nat)
    (wMs : Int) (expS : Nat) (m : String) (p : String × Int)
    (hp : p ∈ redisLiveSliding st now) (hm : p.1 ≠ m) (hpos : 0 ≤ p.2) :
    (p ∈ (slidingWindowScript st now wMs expS m).1.entries ↔
      (now : Int) - wMs < p.2) ∧
    (slidingWindowScript st now wMs expS m).2 =
      ((slidingWindowScript st now wMs expS m).1.entries.length : Int) := by
  refine ⟨?_, by simp [slidingWindowScript, zcard]⟩
  simp only [slidingWindowScript]
  rw [mem_zadd_of_ne _ _ _ _ hm]
  simp only [zremrangebyscore, List.mem_filter, hp, true_and]
  simp only [Bool.not_eq_true', Bool.and_eq_false_iff, decide_eq_false_iff_not, not_le]
  omega

/-- Witness for C4 (amended): an entry inserted 600 ms before a call with a
1000 ms window is strictly inside the window, hence retained. -/
theorem sliding_prune_boundary_amended_witness :
    ((("900:3", (900 : Int)) ∈
        (slidingWindowScript (some ⟨[("900:3", 900)], some 100000⟩)
          1500 1000 2 "1500:9").1.entries ↔
      (1500 : Int) - 1000 < 900) ∧
     (slidingWindowScript (some ⟨[("900:3", 900)], some 100000⟩)
        1500 1000 2 "1500:9").2 =
       ((slidingWindowScript (some ⟨[("900:3", 900)], some 100000⟩)
          1500 1000 2 "1500:9").1.entries.length : Int)) :=
  sliding_prune_boundary_amended _ 1500 1000 2 "1500:9" ("900:3", 900)
    (by decide) (by decide) (by decide)

/-! Sequential calls inside one window -/

lemma map_range_shift {α : Type} (f g : Nat → α) (a : α) (n : Nat)
    (hhead : a = f 0) (hstep : ∀ i, g i = f (i + 1)) :
    a :: (List.range n).map g = (List.range (n + 1)).map f := by
  rw [List.range_succ_eq_map, List.map_cons, List.map_map, hhead]
  congr 1
  apply List.map_congr_left
  intro i _
  exact hstep i

lemma fixedCheckSeq_invariant (w : Nat) (limit : Int) :
    ∀ (ts : List Nat) (c : Int) (T : Nat), 1 ≤ c → (∀ t ∈ ts, t ≤ T) →
      fixedCheckSeq (some ⟨c, some T⟩) ts limit w =
        (some ⟨c + ts.length, some T⟩,
         (List.range ts.length).map (fun i : Nat => mkFixedResult (c + i + 1) limit w))
  | [], c, T, _, _ => by simp [fixedCheckSeq]
  | t :: ts, c, T, hc, hT => by
    have hlive : redisLiveFixed (some ⟨c, some T⟩) t = some ⟨c, some T⟩ :=
      redisLiveFixed_of_le _ _ _ (hT t (by simp))
    have hscript := fixedWindowScript_of_live (some ⟨c, some T⟩) t w ⟨c, some T⟩ hlive hc
    simp only [fixedCheckSeq, CheckFixedWindow, if_true, hscript]
    rw [fixedCheckSeq_invariant w limit ts (c + 1) T (by omega)
      (fun x hx => hT x (by simp [hx]))]
    refine Prod.ext ?_ ?_
    · show some (⟨c + 1 + (ts.length : Int), some T⟩ : FixedEntry) =
        some ⟨c + (((t :: ts).length : Nat) : Int), some T⟩
      have harith : c + 1 + (ts.length : Int) = c + (((t :: ts).length : Nat) : Int) := by
        simp only [List.length_cons]
        push_cast
        ring
      rw [harith]
    · show mkFixedResult (c + 1) limit w ::
          (List.range ts.length).map
            (fun i : Nat => mkFixedResult (c + 1 + i + 1) limit w) =
        (List.range (t :: ts).length).map
          (fun i : Nat => mkFixedResult (c + i + 1) limit w)
      simp only [List.length_cons]
      apply map_range_shift
      · have harith : c + 1 = c + ((0 : Nat) : Int) + 1 := by push_cast; ring
        rw [harith]
      · intro i
        have harith : c + 1 + (i : Int) + 1 = c + (((i + 1 : Nat)) : Int) + 1 := by
          push_cast
          ring
        rw [harith]

lemma slidingCheckSeq_invariant (w : Nat) (limit : Int) (t0 : Nat) :
    ∀ (calls : List (Nat × Nat)) (es : List (String × Int)) (T : Nat),
      (∀ p ∈ es, (t0 : Int) ≤ p.2) →
      (∀ cl ∈ calls, t0 ≤ cl.1 ∧ cl.1 < t0 + w * 1000) →
      (∀ cl ∈ calls, cl.1 ≤ T) →
      ((calls.map (fun cl => mkMember cl.1 cl.2)).Pairwise (fun a b => a ≠ b)) →
      (∀ cl ∈ calls, ∀ p ∈ es, mkMember cl.1 cl.2 ≠ p.1) →
      (slidingCheckSeq (some ⟨es, some T⟩) calls limit w).2 =
        (List.range calls.length).map
          (fun i : Nat => mkSlidingResult ((es.length : Int) + i + 1) limit w)
  | [], es, T, _, _, _, _, _ => by simp [slidingCheckSeq]
  | (t, n) :: cls, es, T, hsc, hwin, hT, hpw, hdis => by
    have hlive : redisLiveSliding (some ⟨es, some T⟩) t = es := by
      simp only [redisLiveSliding]
      rw [if_neg (by have := hT (t, n) (by simp); omega)]
    have hprune : zremrangebyscore es 0 ((t : Int) - (w : Int) * 1000) = es := by
      rw [zremrangebyscore, List.filter_eq_self]
      intro p hp
      have h1 := hsc p hp
      have h2 := (hwin (t, n) (by simp)).1
      have h3 := (hwin (t, n) (by simp)).2
      simp only [Bool.not_eq_true', Bool.and_eq_false_iff, decide_eq_false_iff_not,
        not_le]
      omega
    have hfresh : ∀ p ∈ zremrangebyscore (redisLiveSliding (some ⟨es, some T⟩) t) 0
        ((t : Int) - (w : Int) * 1000), p.1 ≠ mkMember t n := by
      rw [hlive, hprune]
      intro p hp
      exact (hdis (t, n) (by simp) p hp).symm
    have hscript := slidingWindowScript_of_fresh (some ⟨es, some T⟩) t
      ((w : Int) * 1000) (w + 1) (mkMember t n) hfresh
    rw [hlive, hprune] at hscript
    simp only [slidingCheckSeq, CheckSlidingWindow, if_true, hscript]
    have hpwc : List.Pairwise (fun a b => a ≠ b)
        (mkMember t n :: cls.map (fun cl => mkMember cl.1 cl.2)) := by
      simpa using hpw
    have hpw2 := List.pairwise_cons.1 hpwc
    rw [slidingCheckSeq_invariant w limit t0 cls (es ++ [(mkMember t n, (t : Int))])
      (t + (w + 1) * 1000)
      (by
        intro p hp
        rcases List.mem_append.1 hp with h | h
        · exact hsc p h
        · have h2 := (hwin (t, n) (by simp)).1
          rw [List.mem_singleton.1 h]
          simpa using h2)
      (fun cl hcl => hwin cl (by simp [hcl]))
      (by
        intro cl hcl
        have h2 := (hwin (t, n) (by simp)).1
        have h3 := (hwin cl (by simp [hcl])).2
        omega)
      hpw2.2
      (by
        intro cl hcl p hp
        rcases List.mem_append.1 hp with h | h
        · exact hdis cl (by simp [hcl]) p h
        · rw [List.mem_singleton.1 h]
          exact fun hcontra =>
            hpw2.1 (mkMember cl.1 cl.2) (List.mem_map.2 ⟨cl, hcl, rfl⟩) hcontra.symm)]
    show mkSlidingResult ((es.length : Int) + 1) limit w ::
        (List.range cls.length).map
          (fun i : Nat => mkSlidingResult
            (((es ++ [(mkMember t n, (t : Int))]).length : Int) + i + 1) limit w) =
      (List.range ((t, n) :: cls).length).map
        (fun i : Nat => mkSlidingResult ((es.length : Int) + i + 1) limit w)
    simp only [List.length_cons, List.length_append, List.length_nil, Nat.zero_add]
    apply map_range_shift
    · have harith : (es.length : Int) + 1 = (es.length : Int) + ((0 : Nat) : Int) + 1 := by
        push_cast
        ring
      rw [harith]
    · intro i
      have harith : ((es.length + 1 : Nat) : Int) + (i : Int) + 1 =
          (es.length : Int) + (((i + 1 : Nat)) : Int) + 1 := by
        push_cast
        ring
      rw [harith]

lemma fixedCheckSeq_fromEmpty (t0 : Nat) (ts : List Nat) (limit : Int) (w : Nat)
    (hwin : ∀ t ∈ t0 :: ts, t0 ≤ t ∧ t < t0 + w * 1000) :
    (fixedCheckSeq none (t0 :: ts) limit w).2 =
      (List.range (ts.length + 1)).map
        (fun i : Nat => mkFixedResult ((i : Int) + 1) limit w) := by
  have hscript := fixedWindowScript_of_absent none t0 w rfl
  have hinv := fixedCheckSeq_invariant w limit ts 1 (t0 + w * 1000) (by omega)
    (fun t ht => by have := (hwin t (by simp [ht])).2; omega)
  simp only [fixedCheckSeq, CheckFixedWindow, if_true, hscript, hinv]
  show mkFixedResult 1 limit w ::
      (List.range ts.length).map (fun i : Nat => mkFixedResult (1 + i + 1) limit w) =
    (List.range (ts.length + 1)).map (fun i : Nat => mkFixedResult ((i : Int) + 1) limit w)
  apply map_range_shift
  · norm_num
  · intro i
    have harith : (1 : Int) + (i : Int) + 1 = (((i + 1 : Nat)) : Int) + 1 := by
      push_cast
      ring
    rw [harith]

lemma slidingCheckSeq_fromEmpty (t0 n0 : Nat) (cls : List (Nat × Nat))
    (limit : Int) (w : Nat)
    (hwin : ∀ cl ∈ (t0, n0) :: cls, t0 ≤ cl.1 ∧ cl.1 < t0 + w * 1000)
    (hpw : (((t0, n0) :: cls).map (fun cl => mkMember cl.1 cl.2)).Pairwise
      (fun a b => a ≠ b)) :
    (slidingCheckSeq none ((t0, n0) :: cls) limit w).2 =
      (List.range (cls.length + 1)).map
        (fun i : Nat => mkSlidingResult ((i : Int) + 1) limit w) := by
  have hscript := slidingWindowScript_of_fresh none t0 ((w : Int) * 1000) (w + 1)
    (mkMember t0 n0) (by intro p hp; simp [redisLiveSliding, zremrangebyscore] at hp)
  have hz : zremrangebyscore (redisLiveSliding none t0) 0
      ((t0 : Int) - (w : Int) * 1000) = [] := rfl
  rw [hz] at hscript
  simp only [List.nil_append, List.length_nil, Nat.cast_zero, zero_add] at hscript
  have hpwc : List.Pairwise (fun a b => a ≠ b)
      (mkMember t0 n0 :: cls.map (fun cl => mkMember cl.1 cl.2)) := by
    simpa using hpw
  have hpw2 := List.pairwise_cons.1 hpwc
  have hinv := slidingCheckSeq_invariant w limit t0 cls [(mkMember t0 n0, (t0 : Int))]
    (t0 + (w + 1) * 1000)
    (by intro p hp; rw [List.mem_singleton.1 hp])
    (fun cl hcl => hwin cl (by simp [hcl]))
    (by
      intro cl hcl
      have h2 := (hwin cl (by simp [hcl])).2
      omega)
    hpw2.2
    (by
      intro cl hcl p hp
      rw [List.mem_singleton.1 hp]
      exact fun hcontra =>
        hpw2.1 (mkMember cl.1 cl.2) (List.mem_map.2 ⟨cl, hcl, rfl⟩) hcontra.symm)
  simp only [slidingCheckSeq, CheckSlidingWindow, if_true, hscript, hinv]
  show mkSlidingResult 1 limit w ::
      (List.range cls.length).map
        (fun i : Nat =>
          mkSlidingResult ((([(mkMember t0 n0, (t0 : Int))].length : Nat) : Int) + i + 1)
            limit w) =
    (List.range (cls.length + 1)).map
      (fun i : Nat => mkSlidingResult ((i : Int) + 1) limit w)
  apply map_range_shift
  · norm_num
  · intro i
    have harith : ((([(mkMember t0 n0, (t0 : Int))].length : Nat) : Int)) + (i : Int) + 1 =
        (((i + 1 : Nat)) : Int) + 1 := by
      simp only [List.length_cons, List.length_nil]
      push_cast
      ring
    rw [harith]

/-- C1. Starting from a store holding no record, for every nonempty
sequence of sequential `Check` calls (either strategy) with the same
identifier, limit and window, all made within one window — and, for the
sliding strategy, with pairwise-distinct generated members — the i-th call
returns count i; when the number of calls `N = cls.length + 1` satisfies
`N ≤ limit`, every call returns `allowed = true`; and when the sequence has
`limit + 1` calls (i.e. with limit `N` an `(N+1)`-th call is made inside
the same window), that last call returns `allowed = false` for both
strategies. -/
theorem seq_calls_within_window (t0 n0 : Nat) (cls : List (Nat × Nat))
    (limit : Int) (w : Nat)
    (hwin : ∀ cl ∈ (t0, n0) :: cls, t0 ≤ cl.1 ∧ cl.1 < t0 + w * 1000)
    (hpw : (((t0, n0) :: cls).map (fun cl => mkMember cl.1 cl.2)).Pairwise
      (fun a b => a ≠ b)) :
    ((fixedCheckSeq none (((t0, n0) :: cls).map (fun cl => cl.1)) limit w).2.map
        (fun r => r.Count) =
      (List.range (cls.length + 1)).map (fun i : Nat => (i : Int) + 1)) ∧
    ((slidingCheckSeq none ((t0, n0) :: cls) limit w).2.map (fun r => r.Count) =
      (List.range (cls.length + 1)).map (fun i : Nat => (i : Int) + 1)) ∧
    (((cls.length + 1 : Nat) : Int) ≤ limit →
      (∀ r ∈ (fixedCheckSeq none (((t0, n0) :: cls).map (fun cl => cl.1)) limit w).2,
        r.Allowed = true) ∧
      (∀ r ∈ (slidingCheckSeq none ((t0, n0) :: cls) limit w).2,
        r.Allowed = true)) ∧
    (limit + 1 = ((cls.length + 1 : Nat) : Int) →
      ((fixedCheckSeq none (((t0, n0) :: cls).map (fun cl => cl.1)) limit w).2.getLast? =
          some (mkFixedResult (limit + 1) limit w) ∧
        (mkFixedResult (limit + 1) limit w).Allowed = false) ∧
      ((slidingCheckSeq none ((t0, n0) :: cls) limit w).2.getLast? =
          some (mkSlidingResult (limit + 1) limit w) ∧
        (mkSlidingResult (limit + 1) limit w).Allowed = false)) := by
  have hwinF : ∀ t ∈ t0 :: cls.map (fun cl => cl.1), t0 ≤ t ∧ t < t0 + w * 1000 := by
    intro t ht
    rcases List.mem_cons.1 ht with h | h
    · rw [h]
      exact hwin (t0, n0) (by simp)
    · obtain ⟨cl, hcl, hfst⟩ := List.mem_map.1 h
      subst hfst
      exact hwin cl (by simp [hcl])
  have hF := fixedCheckSeq_fromEmpty t0 (cls.map (fun cl => cl.1)) limit w hwinF
  have hS := slidingCheckSeq_fromEmpty t0 n0 cls limit w hwin hpw
  have hmapF : ((t0, n0) :: cls).map (fun cl => cl.1) =
      t0 :: cls.map (fun cl => cl.1) := List.map_cons _ _ _
  have hlenF : (cls.map (fun cl => cl.1)).length = cls.length := List.length_map _ _
  refine ⟨?_, ?_, ?_, ?_⟩
  · rw [hmapF, hF, hlenF, List.map_map]
    apply List.map_congr_left
    intro i _
    rfl
  · rw [hS, List.map_map]
    apply List.map_congr_left
    intro i _
    rfl
  · intro hlim
    constructor
    · intro r hr
      rw [hmapF, hF, hlenF] at hr
      obtain ⟨i, hi, hri⟩ := List.mem_map.1 hr
      have hival := List.mem_range.1 hi
      subst hri
      simp only [mkFixedResult, decide_eq_true_eq]
      have : ((cls.length + 1 : Nat) : Int) ≤ limit := hlim
      push_cast at this ⊢
      omega
    · intro r hr
      rw [hS] at hr
      obtain ⟨i, hi, hri⟩ := List.mem_map.1 hr
      have hival := List.mem_range.1 hi
      subst hri
      simp only [mkSlidingResult, decide_eq_true_eq]
      have : ((cls.length + 1 : Nat) : Int) ≤ limit := hlim
      push_cast at this ⊢
      omega
  · intro hlim
    have hlast : ((cls.length : Nat) : Int) + 1 = limit + 1 := by
      push_cast at hlim ⊢
      omega
    constructor
    · constructor
      · rw [hmapF, hF, hlenF, List.range_succ, List.map_append]
        simp only [List.map_cons, List.map_nil]
        rw [List.getLast?_concat]
        rw [hlast]
      · simp only [mkFixedResult, decide_eq_false_iff_not, not_le]
        omega
    · constructor
      · rw [hS, List.range_succ, List.map_append]
        simp only [List.map_cons, List.map_nil]
        rw [List.getLast?_concat]
        rw [hlast]
      · simp only [mkSlidingResult, decide_eq_false_iff_not, not_le]
        omega

/-- Witness for C1: two calls at 0 ms and 500 ms, window 1 s, limit 2. -/
theorem seq_calls_within_window_witness :
    ((fixedCheckSeq none ([((0 : Nat), (1 : Nat)), (500, 2)].map (fun cl => cl.1))
        2 1).2.map (fun r => r.Count) =
      (List.range ([((0 : Nat), (1 : Nat)), (500, 2)].length)).map
        (fun i : Nat => (i : Int) + 1)) ∧
    ((slidingCheckSeq none [((0 : Nat), (1 : Nat)), (500, 2)] 2 1).2.map
        (fun r => r.Count) =
      (List.range ([((0 : Nat), (1 : Nat)), (500, 2)].length)).map
        (fun i : Nat => (i : Int) + 1)) := by
  have h := seq_calls_within_window 0 1 [(500, 2)] 2 1 (by decide)
    (by simp [List.pairwise_cons]; decide)
  exact ⟨h.1, h.2.1⟩

/-! C3: concurrent calls under the atomicity guarantee -/

lemma length_filter_range_le (limit : Int) (hlim : 0 ≤ limit) :
    ∀ K : Nat, ((List.range K).filter
        (fun i : Nat => decide ((i : Int) + 1 ≤ limit))).length =
      min K limit.toNat
  | 0 => by simp
  | K + 1 => by
    rw [List.range_succ, List.filter_append, List.length_append,
      length_filter_range_le limit hlim K]
    by_cases h : ((K : Int) + 1 ≤ limit)
    · simp [decide_eq_true h]
      omega
    · simp [decide_eq_false h]
      omega

lemma length_filter_range_gt (limit : Int) (hlim : 0 ≤ limit) :
    ∀ K : Nat, ((List.range K).filter
        (fun i : Nat => !(decide ((i : Int) + 1 ≤ limit)))).length =
      K - min K limit.toNat
  | 0 => by simp
  | K + 1 => by
    rw [List.range_succ, List.filter_append, List.length_append,
      length_filter_range_gt limit hlim K]
    by_cases h : ((K : Int) + 1 ≤ limit)
    · simp [decide_eq_true h]
      omega
    · simp [decide_eq_false h]
      omega

/-- C3. For `K` calls with the same identifier, limit and window whose
store transactions execute atomically with no interleaving — modelled by
an arbitrary serialization order of the `K` transactions, all inside one
window, with distinct generated members for the sliding strategy — exactly
`min(K, limit)` calls return `allowed = true` and the remaining
`K − min(K, limit)` calls return `allowed = false`, for both strategies;
no count is lost or duplicated (the i-th serialized transaction returns
count i). -/
theorem concurrent_calls_min_allowed (t0 n0 : Nat) (cls : List (Nat × Nat))
    (limit : Int) (w : Nat) (hlim : 0 ≤ limit)
    (hwin : ∀ cl ∈ (t0, n0) :: cls, t0 ≤ cl.1 ∧ cl.1 < t0 + w * 1000)
    (hpw : (((t0, n0) :: cls).map (fun cl => mkMember cl.1 cl.2)).Pairwise
      (fun a b => a ≠ b)) :
    (((fixedCheckSeq none (((t0, n0) :: cls).map (fun cl => cl.1)) limit w).2.filter
        (fun r => r.Allowed)).length = min (cls.length + 1) limit.toNat) ∧
    (((fixedCheckSeq none (((t0, n0) :: cls).map (fun cl => cl.1)) limit w).2.filter
        (fun r => !r.Allowed)).length =
      (cls.length + 1) - min (cls.length + 1) limit.toNat) ∧
    (((slidingCheckSeq none ((t0, n0) :: cls) limit w).2.filter
        (fun r => r.Allowed)).length = min (cls.length + 1) limit.toNat) ∧
    (((slidingCheckSeq none ((t0, n0) :: cls) limit w).2.filter
        (fun r => !r.Allowed)).length =
      (cls.length + 1) - min (cls.length + 1) limit.toNat) ∧
    ((fixedCheckSeq none (((t0, n0) :: cls).map (fun cl => cl.1)) limit w).2.map
        (fun r => r.Count) =
      (List.range (cls.length + 1)).map (fun i : Nat => (i : Int) + 1)) ∧
    ((slidingCheckSeq none ((t0, n0) :: cls) limit w).2.map (fun r => r.Count) =
      (List.range (cls.length + 1)).map (fun i : Nat => (i : Int) + 1)) := by
  have hwinF : ∀ t ∈ t0 :: cls.map (fun cl => cl.1), t0 ≤ t ∧ t < t0 + w * 1000 := by
    intro t ht
    rcases List.mem_cons.1 ht with h | h
    · rw [h]
      exact hwin (t0, n0) (by simp)
    · obtain ⟨cl, hcl, hfst⟩ := List.mem_map.1 h
      subst hfst
      exact hwin cl (by simp [hcl])
  have hF := fixedCheckSeq_fromEmpty t0 (cls.map (fun cl => cl.1)) limit w hwinF
  have hS := slidingCheckSeq_fromEmpty t0 n0 cls limit w hwin hpw
  have hmapF : ((t0, n0) :: cls).map (fun cl => cl.1) =
      t0 :: cls.map (fun cl => cl.1) := List.map_cons _ _ _
  have hlenF : (cls.map (fun cl => cl.1)).length = cls.length := List.length_map _ _
  have hcompF : ((fun r : FixedWindowResult => r.Allowed) ∘
      (fun i : Nat => mkFixedResult ((i : Int) + 1) limit w)) =
      (fun i : Nat => decide ((i : Int) + 1 ≤ limit)) := rfl
  have hcompFn : ((fun r : FixedWindowResult => !r.Allowed) ∘
      (fun i : Nat => mkFixedResult ((i : Int) + 1) limit w)) =
      (fun i : Nat => !(decide ((i : Int) + 1 ≤ limit))) := rfl
  have hcompS : ((fun r : SlidingWindowResult => r.Allowed) ∘
      (fun i : Nat => mkSlidingResult ((i : Int) + 1) limit w)) =
      (fun i : Nat => decide ((i : Int) + 1 ≤ limit)) := rfl
  have hcompSn : ((fun r : SlidingWindowResult => !r.Allowed) ∘
      (fun i : Nat => mkSlidingResult ((i : Int) + 1) limit w)) =
      (fun i : Nat => !(decide ((i : Int) + 1 ≤ limit))) := rfl
  refine ⟨?_, ?_, ?_, ?_, ?_, ?_⟩
  · rw [hmapF, hF, hlenF, List.filter_map, List.length_map, hcompF,
      length_filter_range_le limit hlim]
  · rw [hmapF, hF, hlenF, List.filter_map, List.length_map, hcompFn,
      length_filter_range_gt limit hlim]
  · rw [hS, List.filter_map, List.length_map, hcompS,
      length_filter_range_le limit hlim]
  · rw [hS, List.filter_map, List.length_map, hcompSn,
      length_filter_range_gt limit hlim]
  · rw [hmapF, hF, hlenF, List.map_map]
    apply List.map_congr_left
    intro i _
    rfl
  · rw [hS, List.map_map]
    apply List.map_congr_left
    intro i _
    rfl

/-- Witness for C3: three serialized calls inside a 1-second window with
limit 2 produce exactly `min 3 2 = 2` admissions and 1 rejection. -/
theorem concurrent_calls_min_allowed_witness :
    (((fixedCheckSeq none
        ([((0 : Nat), (1 : Nat)), (100, 2), (200, 3)].map (fun cl => cl.1))
        2 1).2.filter (fun r => r.Allowed)).length =
      min ([((0 : Nat), (1 : Nat)), (100, 2), (200, 3)].length) (2 : Int).toNat) ∧
    (((slidingCheckSeq none [((0 : Nat), (1 : Nat)), (100, 2), (200, 3)] 2 1).2.filter
        (fun r => r.Allowed)).length =
      min ([((0 : Nat), (1 : Nat)), (100, 2), (200, 3)].length) (2 : Int).toNat) := by
  have h := concurrent_calls_min_allowed 0 1 [(100, 2), (200, 3)] 2 1 (by decide)
    (by decide) (by simp [List.pairwise_cons]; decide)
  exact ⟨h.1, h.2.2.1⟩

/-! C6 and C10: every call is recorded; the count includes the request -/

lemma CheckFixedWindow_ok (st : Option FixedEntry) (now : Nat) (limit : Int)
    (w : Nat) :
    CheckFixedWindow true st now limit w =
      .ok ((fixedWindowScript st now w).1,
        mkFixedResult (fixedWindowScript st now w).2 limit w) := by
  rcases hsc : fixedWindowScript st now w with ⟨s1, c1⟩
  simp [CheckFixedWindow, hsc, mkFixedResult]

lemma CheckSlidingWindow_ok (st : Option SlidingEntry) (nowMs nowNano : Nat)
    (limit : Int) (w : Nat) :
    CheckSlidingWindow true st nowMs nowNano limit w =
      .ok ((slidingWindowScript st nowMs ((w : Int) * 1000) (w + 1)
          (mkMember nowMs nowNano)).1,
        mkSlidingResult (slidingWindowScript st nowMs ((w : Int) * 1000) (w + 1)
          (mkMember nowMs nowNano)).2 limit w) := by
  rcases hsc : slidingWindowScript st nowMs ((w : Int) * 1000) (w + 1)
    (mkMember nowMs nowNano) with ⟨s1, c1⟩
  simp [CheckSlidingWindow, hsc, mkSlidingResult]

lemma fixedWindowScript_count (st : Option FixedEntry) (now w : Nat) :
    (fixedWindowScript st now w).1.count = liveFixedCount st now + 1 ∧
    (fixedWindowScript st now w).2 = liveFixedCount st now + 1 := by
  constructor
  · simp only [fixedWindowScript, liveFixedCount]
    split <;> rfl
  · simp only [fixedWindowScript, liveFixedCount]
    split <;> rfl

lemma mem_zadd_self (es : List (String × Int)) (sc : Int) (m : String) :
    (m, sc) ∈ zadd es sc m := by
  unfold zadd
  split
  · next hany =>
    obtain ⟨q, hq, hqm⟩ := List.any_eq_true.1 hany
    refine List.mem_map.2 ⟨q, hq, ?_⟩
    rw [if_pos hqm]
    have : q.1 = m := by simpa using hqm
    rw [this]
  · exact List.mem_append.2 (Or.inr (by simp))

lemma slidingWindowScript_count_eq (st : Option SlidingEntry) (now : Nat)
    (wMs : Int) (expS : Nat) (m : String) :
    (slidingWindowScript st now wMs expS m).2 =
      ((slidingWindowScript st now wMs expS m).1.entries.length : Int) := by
  simp [slidingWindowScript, zcard]

lemma mem_entries_slidingWindowScript (st : Option SlidingEntry) (now : Nat)
    (wMs : Int) (expS : Nat) (m : String) :
    (m, (now : Int)) ∈ (slidingWindowScript st now wMs expS m).1.entries :=
  mem_zadd_self _ _ _

/-- C6. Every call records the request in the store regardless of the
decision: the fixed-window post-state and returned count equal the live
count plus exactly one, and the post-state is the same for every limit
(so it is never rolled back on rejection); a subsequent call whose key is
still live returns a count exactly one higher; the sliding-window script
appends exactly one entry to the pruned log (its generated member being
fresh) and returns its size, again for every limit. -/
theorem every_call_recorded
    (st : Option FixedEntry) (now now2 : Nat) (w : Nat)
    (stS : Option SlidingEntry) (nowMs nowNano : Nat) (wS : Nat)
    (hfresh : ∀ p ∈ zremrangebyscore (redisLiveSliding stS nowMs) 0
        ((nowMs : Int) - (wS : Int) * 1000), p.1 ≠ mkMember nowMs nowNano)
    (hlive2 : redisLiveFixed (some (fixedWindowScript st now w).1) now2 =
      some (fixedWindowScript st now w).1) :
    (∀ limit : Int, CheckFixedWindow true st now limit w =
      .ok ((fixedWindowScript st now w).1,
        mkFixedResult (fixedWindowScript st now w).2 limit w)) ∧
    (fixedWindowScript st now w).1.count = liveFixedCount st now + 1 ∧
    (fixedWindowScript st now w).2 = liveFixedCount st now + 1 ∧
    (fixedWindowScript (some (fixedWindowScript st now w).1) now2 w).2 =
      (fixedWindowScript st now w).2 + 1 ∧
    (∀ limit : Int, CheckSlidingWindow true stS nowMs nowNano limit wS =
      .ok ((slidingWindowScript stS nowMs ((wS : Int) * 1000) (wS + 1)
          (mkMember nowMs nowNano)).1,
        mkSlidingResult (slidingWindowScript stS nowMs ((wS : Int) * 1000) (wS + 1)
          (mkMember nowMs nowNano)).2 limit wS)) ∧
    (slidingWindowScript stS nowMs ((wS : Int) * 1000) (wS + 1)
        (mkMember nowMs nowNano)).1.entries =
      zremrangebyscore (redisLiveSliding stS nowMs) 0
          ((nowMs : Int) - (wS : Int) * 1000) ++
        [(mkMember nowMs nowNano, (nowMs : Int))] ∧
    (slidingWindowScript stS nowMs ((wS : Int) * 1000) (wS + 1)
        (mkMember nowMs nowNano)).2 =
      ((zremrangebyscore (redisLiveSliding stS nowMs) 0
          ((nowMs : Int) - (wS : Int) * 1000)).length : Int) + 1 := by
  have hcount := fixedWindowScript_count st now w
  have hcount2 := fixedWindowScript_count (some (fixedWindowScript st now w).1) now2 w
  have hscriptS := slidingWindowScript_of_fresh stS nowMs ((wS : Int) * 1000) (wS + 1)
    (mkMember nowMs nowNano) hfresh
  refine ⟨fun limit => CheckFixedWindow_ok st now limit w, hcount.1, hcount.2, ?_,
    fun limit => CheckSlidingWindow_ok stS nowMs nowNano limit wS, ?_, ?_⟩
  · rw [hcount2.2, hcount.2]
    simp [liveFixedCount, hlive2, hcount.1]
  · rw [hscriptS]
  · rw [hscriptS]

/-- Witness for C6 at concrete inputs (first call on an empty store at
0 ms, second fixed-window call at 500 ms, window 1 s). -/
theorem every_call_recorded_witness :
    (fixedWindowScript none 0 1).1.count = liveFixedCount none 0 + 1 ∧
    (fixedWindowScript none 0 1).2 = liveFixedCount none 0 + 1 ∧
    (fixedWindowScript (some (fixedWindowScript none 0 1).1) 500 1).2 =
      (fixedWindowScript none 0 1).2 + 1 ∧
    (slidingWindowScript none 0 ((1 : Int) * 1000) (1 + 1) (mkMember 0 7)).1.entries =
      zremrangebyscore (redisLiveSliding none 0) 0 ((0 : Int) - (1 : Int) * 1000) ++
        [(mkMember 0 7, (0 : Int))] := by
  have h := every_call_recorded none 0 500 1 none 0 7 1
    (by intro p hp; simp [redisLiveSliding, zremrangebyscore] at hp)
    (by rfl)
  exact ⟨h.2.1, h.2.2.1, h.2.2.2.1, by
    have h6 := h.2.2.2.2.2.1
    norm_num at h6 ⊢
    exact h6⟩

/-- C10. Every successful check returns a count of at least 1 — the
request being checked is always included in its own count, because the
increment (resp. insertion) happens before the count is read — so with
`limit = 0` every request is rejected yet still recorded: the stored
fixed-window counter equals the returned count, and the generated member
is present in the stored sliding-window log. -/
theorem count_at_least_one
    (st : Option FixedEntry) (stS : Option SlidingEntry)
    (now nowMs nowNano : Nat) (limitF limitS : Int) (wF wS : Nat)
    (sF : FixedEntry) (rF : FixedWindowResult)
    (sS : SlidingEntry) (rS : SlidingWindowResult)
    (hcount : ∀ e, st = some e → 1 ≤ e.count)
    (hF : CheckFixedWindow true st now limitF wF = .ok (sF, rF))
    (hS : CheckSlidingWindow true stS nowMs nowNano limitS wS = .ok (sS, rS)) :
    (1 ≤ rF.Count ∧ (limitF = 0 → rF.Allowed = false) ∧ sF.count = rF.Count) ∧
    (1 ≤ rS.Count ∧ (limitS = 0 → rS.Allowed = false) ∧
      (mkMember nowMs nowNano, (nowMs : Int)) ∈ sS.entries) := by
  rw [CheckFixedWindow_ok] at hF
  rw [CheckSlidingWindow_ok] at hS
  injection hF with hF1
  injection hF1 with hsF hrF
  injection hS with hS1
  injection hS1 with hsS hrS
  subst hsF
  subst hrF
  subst hsS
  subst hrS
  have hlive : 0 ≤ liveFixedCount st now := by
    rcases hl : redisLiveFixed st now with _ | e2
    · simp [liveFixedCount, hl]
    · have hst : st = some e2 := by
        rcases st with _ | e0
        · simp [redisLiveFixed] at hl
        · simp only [redisLiveFixed] at hl
          rcases he : e0.expireAt with _ | t
          · simp [he] at hl
            rw [hl]
          · simp only [he] at hl
            by_cases ht : t < now
            · rw [if_pos ht] at hl
              exact absurd hl (by simp)
            · rw [if_neg ht] at hl
              injection hl with hl2
              rw [hl2]
      have := hcount e2 hst
      simp only [liveFixedCount, hl]
      omega
  have hcnt := fixedWindowScript_count st now wF
  have hmem := mem_entries_slidingWindowScript stS nowMs ((wS : Int) * 1000) (wS + 1)
    (mkMember nowMs nowNano)
  have hlen := slidingWindowScript_count_eq stS nowMs ((wS : Int) * 1000) (wS + 1)
    (mkMember nowMs nowNano)
  have hpos : 1 ≤ (slidingWindowScript stS nowMs ((wS : Int) * 1000) (wS + 1)
      (mkMember nowMs nowNano)).2 := by
    rw [hlen]
    have := List.length_pos.2 (List.ne_nil_of_mem hmem)
    omega
  refine ⟨⟨?_, ?_, ?_⟩, ⟨?_, ?_, ?_⟩⟩
  · show 1 ≤ (fixedWindowScript st now wF).2
    rw [hcnt.2]
    omega
  · intro h0
    show decide ((fixedWindowScript st now wF).2 ≤ limitF) = false
    rw [decide_eq_false_iff_not, not_le, h0, hcnt.2]
    omega
  · rw [hcnt.1, hcnt.2]
    rfl
  · exact hpos
  · intro h0
    show decide ((slidingWindowScript stS nowMs ((wS : Int) * 1000) (wS + 1)
      (mkMember nowMs nowNano)).2 ≤ limitS) = false
    rw [decide_eq_false_iff_not, not_le, h0]
    omega
  · exact hmem

/-- Witness for C10: a first request with `limit = 0` is rejected but
recorded, for both strategies. -/
theorem count_at_least_one_witness :
    (1 ≤ (⟨false, 1, 0, 60⟩ : FixedWindowResult).Count ∧
      ((0 : Int) = 0 → (⟨false, 1, 0, 60⟩ : FixedWindowResult).Allowed = false) ∧
      (⟨1, some 60000⟩ : FixedEntry).count =
        (⟨false, 1, 0, 60⟩ : FixedWindowResult).Count) ∧
    (1 ≤ (⟨false, 1, 0, 1⟩ : SlidingWindowResult).Count ∧
      ((0 : Int) = 0 → (⟨false, 1, 0, 1⟩ : SlidingWindowResult).Allowed = false) ∧
      (mkMember 0 5, ((0 : Nat) : Int)) ∈ (⟨[("0:5", 0)], some 2000⟩ : SlidingEntry).entries) :=
  count_at_least_one none none 0 0 5 0 0 60 1
    ⟨1, some 60000⟩ ⟨false, 1, 0, 60⟩ ⟨[("0:5", 0)], some 2000⟩ ⟨false, 1, 0, 1⟩
    (fun e he => nomatch he) (by rfl) (by rfl)

/-! C9: uniqueness of generated members

`mkMember` is the Lean form of `fmt.Sprintf("%d:%d", now, nano)`.  Its
injectivity reduces to injectivity of the decimal representation of `Nat`
plus the fact that the separator `':'` is not a decimal digit. -/

/-- Decimal digit characters of a natural number, most significant first
(the digit list underlying `Nat.repr`). -/
def natDigits (n : Nat) : List Char :=
  if h : n < 10 then [Nat.digitChar n]
  else natDigits (n / 10) ++ [Nat.digitChar (n % 10)]
termination_by n
decreasing_by exact Nat.div_lt_self (by omega) (by omega)

lemma natDigits_lt (n : Nat) (h : n < 10) : natDigits n = [Nat.digitChar n] := by
  rw [natDigits, dif_pos h]

lemma natDigits_ge (n : Nat) (h : ¬ n < 10) :
    natDigits n = natDigits (n / 10) ++ [Nat.digitChar (n % 10)] := by
  rw [natDigits, dif_neg h]

lemma natDigits_ne_nil (n : Nat) : natDigits n ≠ [] := by
  by_cases h : n < 10
  · rw [natDigits_lt n h]
    simp
  · rw [natDigits_ge n h]
    simp

lemma toDigitsCore_eq_natDigits :
    ∀ (fuel n : Nat) (ds : List Char), n < fuel →
      Nat.toDigitsCore 10 fuel n ds = natDigits n ++ ds
  | 0, _, _, h => by omega
  | fuel + 1, n, ds, h => by
    simp only [Nat.toDigitsCore]
    by_cases h10 : n / 10 = 0
    · have hn : n < 10 := by omega
      rw [if_pos h10, natDigits_lt n hn, Nat.mod_eq_of_lt hn]
      simp
    · rw [if_neg h10,
        toDigitsCore_eq_natDigits fuel (n / 10) _ (by omega),
        natDigits_ge n (by omega)]
      simp [List.append_assoc]

lemma digitChar_inj_lt : ∀ a < 10, ∀ b < 10,
    Nat.digitChar a = Nat.digitChar b → a = b := by decide

lemma natDigits_inj : ∀ (m n : Nat), natDigits m = natDigits n → m = n
  | m, n, h => by
    by_cases hm : m < 10 <;> by_cases hn : n < 10
    · rw [natDigits_lt m hm, natDigits_lt n hn] at h
      injection h with h1 _
      exact digitChar_inj_lt m hm n hn h1
    · rw [natDigits_lt m hm, natDigits_ge n hn] at h
      have hlen := congrArg List.length h
      simp only [List.length_cons, List.length_nil, List.length_append] at hlen
      have h0 : (natDigits (n / 10)).length = 0 := by omega
      exact absurd (List.length_eq_zero.1 h0) (natDigits_ne_nil _)
    · rw [natDigits_ge m hm, natDigits_lt n hn] at h
      have hlen := congrArg List.length h
      simp only [List.length_cons, List.length_nil, List.length_append] at hlen
      have h0 : (natDigits (m / 10)).length = 0 := by omega
      exact absurd (List.length_eq_zero.1 h0) (natDigits_ne_nil _)
    · rw [natDigits_ge m hm, natDigits_ge n hn] at h
      have hrev := congrArg List.reverse h
      simp only [List.reverse_append, List.reverse_cons, List.reverse_nil,
        List.nil_append, List.singleton_append] at hrev
      injection hrev with h1 h2
      have hmod : m % 10 = n % 10 :=
        digitChar_inj_lt _ (Nat.mod_lt _ (by omega)) _ (Nat.mod_lt _ (by omega)) h1
      have hdiveq : natDigits (m / 10) = natDigits (n / 10) :=
        List.reverse_injective h2
      have hdiv : m / 10 = n / 10 :=
        natDigits_inj (m / 10) (n / 10) hdiveq
      omega
termination_by m n => m
decreasing_by exact Nat.div_lt_self (by omega) (by omega)

lemma natRepr_data (n : Nat) : (Nat.repr n).data = natDigits n := by
  show (Nat.toDigits 10 n).asString.data = natDigits n
  rw [Nat.toDigits, toDigitsCore_eq_natDigits (n + 1) n [] (by omega),
    List.append_nil]
  rfl

lemma digitChar_ne_colon : ∀ a < 10, Nat.digitChar a ≠ ':' := by decide

lemma natDigits_no_colon : ∀ (n : Nat), ∀ ch ∈ natDigits n, ch ≠ ':'
  | n, ch, hch => by
    by_cases h : n < 10
    · rw [natDigits_lt n h] at hch
      rw [List.mem_singleton.1 hch]
      exact digitChar_ne_colon n h
    · rw [natDigits_ge n h] at hch
      rcases List.mem_append.1 hch with h1 | h1
      · exact natDigits_no_colon (n / 10) ch h1
      · rw [List.mem_singleton.1 h1]
        exact digitChar_ne_colon _ (Nat.mod_lt _ (by omega))
termination_by n => n
decreasing_by exact Nat.div_lt_self (by omega) (by omega)

lemma append_colon_inj : ∀ (a c b d : List Char),
    (∀ ch ∈ a, ch ≠ ':') → (∀ ch ∈ c, ch ≠ ':') →
    a ++ ':' :: b = c ++ ':' :: d → a = c ∧ b = d
  | [], [], b, d, _, _, h => by
    simp only [List.nil_append, List.cons.injEq, true_and] at h
    exact ⟨rfl, h⟩
  | [], ch2 :: c, b, d, _, hc, h => by
    simp only [List.nil_append, List.cons_append, List.cons.injEq] at h
    exact absurd h.1.symm (hc ch2 (by simp))
  | ch1 :: a, [], b, d, ha, _, h => by
    simp only [List.nil_append, List.cons_append, List.cons.injEq] at h
    exact absurd h.1 (ha ch1 (by simp))
  | ch1 :: a, ch2 :: c, b, d, ha, hc, h => by
    simp only [List.cons_append, List.cons.injEq] at h
    obtain ⟨h1, h2⟩ := h
    obtain ⟨ha2, hb2⟩ := append_colon_inj a c b d
      (fun ch hch => ha ch (by simp [hch]))
      (fun ch hch => hc ch (by simp [hch])) h2
    exact ⟨by rw [h1, ha2], hb2⟩

lemma toString_nat_no_colon (k : Nat) : ∀ ch ∈ (toString k).data, ch ≠ ':' := by
  show ∀ ch ∈ (Nat.repr k).data, ch ≠ ':'
  rw [natRepr_data]
  exact natDigits_no_colon k

lemma toString_nat_inj {m n : Nat} (h : toString m = toString n) : m = n := by
  have hd : (Nat.repr m).data = (Nat.repr n).data := congrArg String.data h
  rw [natRepr_data, natRepr_data] at hd
  exact natDigits_inj m n hd

lemma mkMember_inj (t1 n1 t2 n2 : Nat) (h : mkMember t1 n1 = mkMember t2 n2) :
    t1 = t2 ∧ n1 = n2 := by
  have hd := congrArg String.data h
  simp only [mkMember, String.data_append, List.append_assoc,
    List.cons_append, List.nil_append] at hd
  obtain ⟨h1, h2⟩ := append_colon_inj _ _ _ _
    (toString_nat_no_colon t1) (toString_nat_no_colon t2) hd
  exact ⟨toString_nat_inj (String.ext h1), toString_nat_inj (String.ext h2)⟩

/-- C9. Two sliding-window calls with distinct nanosecond clock
readings generate distinct member strings — even when they fall in the
same millisecond, i.e. carry the identical score — so after two such
same-millisecond calls on the same key the log holds two entries and the
returned counts reflect both requests (`1` then `2`). -/
theorem member_uniqueness (t1 n1 t2 n2 : Nat) (limit : Int) (w : Nat)
    (hne : n1 ≠ n2) (hw : 1 ≤ w) :
    mkMember t1 n1 ≠ mkMember t2 n2 ∧
    ((slidingCheckSeq none [(t1, n1), (t1, n2)] limit w).2.map (fun r => r.Count) =
      [1, 2]) := by
  have hmm : mkMember t1 n1 ≠ mkMember t2 n2 :=
    fun h => hne (mkMember_inj _ _ _ _ h).2
  have hmm1 : mkMember t1 n1 ≠ mkMember t1 n2 :=
    fun h => hne (mkMember_inj _ _ _ _ h).2
  refine ⟨hmm, ?_⟩
  have hS := slidingCheckSeq_fromEmpty t1 n1 [(t1, n2)] limit w
    (by
      intro cl hcl
      rcases List.mem_cons.1 hcl with h | h
      · rw [h]
        constructor
        · exact le_refl t1
        · show t1 < t1 + w * 1000
          omega
      · rw [List.mem_singleton.1 h]
        constructor
        · exact le_refl t1
        · show t1 < t1 + w * 1000
          omega)
    (by
      simp only [List.map_cons, List.map_nil, List.pairwise_cons,
        List.mem_singleton, List.mem_cons, List.not_mem_nil, or_false]
      refine ⟨?_, by simp⟩
      intro a ha
      rw [ha]
      exact hmm1)
  rw [hS]
  simp only [List.length_cons, List.length_nil, List.range_succ, List.range_zero,
    List.nil_append, List.map_append, List.map_cons, List.map_nil, List.map_map,
    List.cons_append, mkSlidingResult]
  norm_num

/-- Witness for C9: two calls in the same millisecond (5 ms) with distinct
nanosecond readings. -/
theorem member_uniqueness_witness :
    mkMember 5 1 ≠ mkMember 5 2 ∧
    ((slidingCheckSeq none [(5, 1), (5, 2)] 3 1).2.map (fun r => r.Count) =
      [1, 2]) :=
  member_uniqueness 5 1 5 2 3 1 (by decide) (by decide)
